import Mathlib

/-!
Verification of the spinaltap keyframe-interpolation library against its
specification.  The repository ships only its unit tests and the
visualization module; the core components (expression evaluator,
interpolation-method library, keyframe/channel/spline/solver data model and
the numeric-backend abstraction) are modelled from the specification, as
noted on each definition.  The visualization functions are embedded from
`src/visualization.py`.
-/

namespace SpinalTap

/-- Modelled from the spec (§7 error taxonomy): the error kinds surfaced by
expression parsing/evaluation and by data-model operations.  `synErr` models
Python `SyntaxError`, `nameErr` models `NameError`, `valueErr` models
`ValueError`, `zeroDivErr` models `ZeroDivisionError`. -/
inductive Err where
  | synErr (msg : String)
  | nameErr (name : String)
  | valueErr (msg : String)
  | zeroDivErr
  deriving Repr, DecidableEq

instance {ε β : Type} [DecidableEq ε] [DecidableEq β] : DecidableEq (Except ε β) :=
  fun x y =>
    match x, y with
    | .ok a, .ok b => decidable_of_iff (a = b) (by simp)
    | .error a, .error b => decidable_of_iff (a = b) (by simp)
    | .ok _, .error _ => isFalse (by simp)
    | .error _, .ok _ => isFalse (by simp)

/-- Modelled from the spec (§4.2): the closed enumeration of interpolation
methods. -/
inductive Method where
  | nearest
  | step
  | linear
  | quadratic
  | cubic
  | polynomial
  | hermite
  | bezier
  | pchip
  | gaussian
  deriving Repr, DecidableEq

/-- Modelled from the spec (§4.1): binary operators of the restricted
expression grammar: arithmetic, exponentiation (written `^` in input and
normalized to the power operator), and comparisons. -/
inductive BinOp where
  | add
  | sub
  | mul
  | div
  | pow
  | lt
  | le
  | gt
  | ge
  | eq
  | ne
  deriving Repr, DecidableEq

/-- Modelled from the spec (§4.1): the typed expression tree produced by the
restricted parser.  Numeric literals are rationals (decimal literals of the
source text); variables cover `@` and named bindings; calls are restricted
to whitelisted function names at parse time. -/
inductive Expr where
  | num (q : ℚ)
  | var (name : String)
  | neg (a : Expr)
  | bin (op : BinOp) (a b : Expr)
  | call (f : String) (args : List Expr)
  deriving Repr

/-- Modelled from the spec (§4.1): the fixed whitelist of named mathematical
functions accepted in call position. -/
def funcWhitelist : List String :=
  ["sin", "cos", "tan", "sqrt", "abs", "min", "max", "exp", "log",
   "floor", "ceil"]

/-- Tokens of the restricted expression grammar. -/
inductive Tok where
  | tnum (q : ℚ)
  | tident (s : String)
  | tat
  | tplus
  | tminus
  | tstar
  | tslash
  | tpow
  | tlparen
  | trparen
  | tcomma
  | tlt
  | tle
  | tgt
  | tge
  | teq
  | tne
  deriving Repr, DecidableEq

/-- Character-level rewriting of `^` to `**`. -/
def sanitizeChars : List Char → List Char
  | [] => []
  | c :: t => if c = '^' then '*' :: '*' :: sanitizeChars t else c :: sanitizeChars t

/-- Modelled from the spec / `test_sanitize_for_ast`: `sanitize_for_ast`
rewrites the exponentiation operator `^` to the evaluator's power operator
`**`, leaving everything else (including `@`) unchanged. -/
def sanitize_for_ast (s : String) : String :=
  String.mk (sanitizeChars s.data)

/-- Numeric value of a list of decimal digit characters. -/
def digitsToNat (ds : List Char) : ℕ :=
  ds.foldl (fun n c => 10 * n + (c.toNat - 48)) 0

/-- Modelled from the spec (§4.1): the tokenizer of the restricted grammar.
Any character or operator outside the whitelist (for example `.` used as
attribute access, or a lone `=` as assignment) is a syntax error.  `fuel`
bounds the recursion; one character is consumed per step. -/
def tokenize : ℕ → List Char → Except Err (List Tok)
  | 0, _ => .error (.synErr "tokenizer fuel exhausted")
  | _, [] => .ok []
  | fuel + 1, c :: cs =>
    if c = ' ' then tokenize fuel cs
    else if c.isDigit then
      let p := (c :: cs).span Char.isDigit
      let ip : ℚ := (digitsToNat p.1 : ℚ)
      match p.2 with
      | '.' :: r2 =>
        let pf := r2.span Char.isDigit
        if pf.1.isEmpty then .error (.synErr "malformed number")
        else do
          let ts ← tokenize fuel pf.2
          let frac : ℚ := (digitsToNat pf.1 : ℚ) / ((10 : ℚ) ^ pf.1.length)
          .ok (.tnum (ip + frac) :: ts)
      | r1 => do
        let ts ← tokenize fuel r1
        .ok (.tnum ip :: ts)
    else if c.isAlpha ∨ c = '_' then
      let p := (c :: cs).span (fun d => d.isAlphanum ∨ d = '_')
      do
        let ts ← tokenize fuel p.2
        .ok (.tident (String.mk p.1) :: ts)
    else if c = '@' then do
      let ts ← tokenize fuel cs
      .ok (.tat :: ts)
    else if c = '+' then do
      let ts ← tokenize fuel cs
      .ok (.tplus :: ts)
    else if c = '-' then do
      let ts ← tokenize fuel cs
      .ok (.tminus :: ts)
    else if c = '*' then
      match cs with
      | '*' :: cs2 => do
        let ts ← tokenize fuel cs2
        .ok (.tpow :: ts)
      | _ => do
        let ts ← tokenize fuel cs
        .ok (.tstar :: ts)
    else if c = '/' then do
      let ts ← tokenize fuel cs
      .ok (.tslash :: ts)
    else if c = '(' then do
      let ts ← tokenize fuel cs
      .ok (.tlparen :: ts)
    else if c = ')' then do
      let ts ← tokenize fuel cs
      .ok (.trparen :: ts)
    else if c = ',' then do
      let ts ← tokenize fuel cs
      .ok (.tcomma :: ts)
    else if c = '<' then
      match cs with
      | '=' :: cs2 => do
        let ts ← tokenize fuel cs2
        .ok (.tle :: ts)
      | _ => do
        let ts ← tokenize fuel cs
        .ok (.tlt :: ts)
    else if c = '>' then
      match cs with
      | '=' :: cs2 => do
        let ts ← tokenize fuel cs2
        .ok (.tge :: ts)
      | _ => do
        let ts ← tokenize fuel cs
        .ok (.tgt :: ts)
    else if c = '=' then
      match cs with
      | '=' :: cs2 => do
        let ts ← tokenize fuel cs2
        .ok (.teq :: ts)
      | _ => .error (.synErr "assignment is not allowed")
    else if c = '!' then
      match cs with
      | '=' :: cs2 => do
        let ts ← tokenize fuel cs2
        .ok (.tne :: ts)
      | _ => .error (.synErr "disallowed operator")
    else .error (.synErr "disallowed character")

mutual

/-- Modelled from the spec (§4.1): comparison level of the recursive-descent
grammar (a single, non-chained comparison over additive expressions). -/
def parseCmp : ℕ → List Tok → Except Err (Expr × List Tok)
  | 0, _ => .error (.synErr "fuel exhausted")
  | fuel + 1, ts => do
    let r ← parseAdd fuel ts
    match r.2 with
    | .tlt :: ts2 => do
      let r2 ← parseAdd fuel ts2
      .ok (.bin .lt r.1 r2.1, r2.2)
    | .tle :: ts2 => do
      let r2 ← parseAdd fuel ts2
      .ok (.bin .le r.1 r2.1, r2.2)
    | .tgt :: ts2 => do
      let r2 ← parseAdd fuel ts2
      .ok (.bin .gt r.1 r2.1, r2.2)
    | .tge :: ts2 => do
      let r2 ← parseAdd fuel ts2
      .ok (.bin .ge r.1 r2.1, r2.2)
    | .teq :: ts2 => do
      let r2 ← parseAdd fuel ts2
      .ok (.bin .eq r.1 r2.1, r2.2)
    | .tne :: ts2 => do
      let r2 ← parseAdd fuel ts2
      .ok (.bin .ne r.1 r2.1, r2.2)
    | _ => .ok r

/-- Additive level: left-associated chains of `+` and `-`. -/
def parseAdd : ℕ → List Tok → Except Err (Expr × List Tok)
  | 0, _ => .error (.synErr "fuel exhausted")
  | fuel + 1, ts => do
    let r ← parseMul fuel ts
    parseAddRest fuel r.1 r.2

/-- Remaining additive operands after the first multiplicative factor. -/
def parseAddRest : ℕ → Expr → List Tok → Except Err (Expr × List Tok)
  | 0, _, _ => .error (.synErr "fuel exhausted")
  | fuel + 1, acc, ts =>
    match ts with
    | .tplus :: ts2 => do
      let r ← parseMul fuel ts2
      parseAddRest fuel (.bin .add acc r.1) r.2
    | .tminus :: ts2 => do
      let r ← parseMul fuel ts2
      parseAddRest fuel (.bin .sub acc r.1) r.2
    | _ => .ok (acc, ts)

/-- Multiplicative level: left-associated chains of `*` and `/`. -/
def parseMul : ℕ → List Tok → Except Err (Expr × List Tok)
  | 0, _ => .error (.synErr "fuel exhausted")
  | fuel + 1, ts => do
    let r ← parseUnary fuel ts
    parseMulRest fuel r.1 r.2

/-- Remaining multiplicative operands. -/
def parseMulRest : ℕ → Expr → List Tok → Except Err (Expr × List Tok)
  | 0, _, _ => .error (.synErr "fuel exhausted")
  | fuel + 1, acc, ts =>
    match ts with
    | .tstar :: ts2 => do
      let r ← parseUnary fuel ts2
      parseMulRest fuel (.bin .mul acc r.1) r.2
    | .tslash :: ts2 => do
      let r ← parseUnary fuel ts2
      parseMulRest fuel (.bin .div acc r.1) r.2
    | _ => .ok (acc, ts)

/-- Unary level: prefix minus (binding looser than the power operator). -/
def parseUnary : ℕ → List Tok → Except Err (Expr × List Tok)
  | 0, _ => .error (.synErr "fuel exhausted")
  | fuel + 1, ts =>
    match ts with
    | .tminus :: ts2 => do
      let r ← parseUnary fuel ts2
      .ok (.neg r.1, r.2)
    | _ => parsePow fuel ts

/-- Power level: right-associated `**` over atoms. -/
def parsePow : ℕ → List Tok → Except Err (Expr × List Tok)
  | 0, _ => .error (.synErr "fuel exhausted")
  | fuel + 1, ts => do
    let r ← parseAtom fuel ts
    match r.2 with
    | .tpow :: ts2 => do
      let r2 ← parseUnary fuel ts2
      .ok (.bin .pow r.1 r2.1, r2.2)
    | _ => .ok r

/-- Atoms: numbers, parenthesized expressions, `@`, plain identifiers
(variables resolved at evaluation time) and calls of whitelisted functions.
A call of a function name outside the whitelist is a syntax error. -/
def parseAtom : ℕ → List Tok → Except Err (Expr × List Tok)
  | 0, _ => .error (.synErr "fuel exhausted")
  | fuel + 1, ts =>
    match ts with
    | .tnum q :: ts2 => .ok (.num q, ts2)
    | .tat :: ts2 => .ok (.var "@", ts2)
    | .tlparen :: ts2 => do
      let r ← parseCmp fuel ts2
      match r.2 with
      | .trparen :: ts3 => .ok (r.1, ts3)
      | _ => .error (.synErr "expected closing parenthesis")
    | .tident f :: .tlparen :: ts2 =>
      if f ∈ funcWhitelist then do
        let r ← parseArgs fuel ts2
        .ok (.call f r.1, r.2)
      else .error (.synErr "function is not whitelisted")
    | .tident s :: ts2 => .ok (.var s, ts2)
    | _ => .error (.synErr "unexpected token")

/-- Comma-separated argument list of a call, including the closing
parenthesis. -/
def parseArgs : ℕ → List Tok → Except Err (List Expr × List Tok)
  | 0, _ => .error (.synErr "fuel exhausted")
  | fuel + 1, ts => do
    let r ← parseCmp fuel ts
    match r.2 with
    | .tcomma :: ts2 => do
      let r2 ← parseArgs fuel ts2
      .ok (r.1 :: r2.1, r2.2)
    | .trparen :: ts2 => .ok ([r.1], ts2)
    | _ => .error (.synErr "expected comma or closing parenthesis")

end

/-- Modelled from the spec (§4.1): `parse(text)` sanitizes (`^` → power
operator), tokenizes and parses the whole input, failing with a syntax
error on malformed input, on trailing tokens, and on anything outside the
whitelisted grammar. -/
def parseExpression (s : String) : Except Err Expr := do
  let t := sanitize_for_ast s
  let toks ← tokenize (t.length + 1) t.data
  let r ← parseCmp (8 * (toks.length + 1)) toks
  match r.2 with
  | [] => .ok r.1
  | _ => .error (.synErr "unexpected trailing input")

/-- Modelled from the spec (§4.1): the numeric environment an instantiation
of the evaluator supplies: named constants (`pi`, `e`), the whitelisted
functions (each taking an argument list, `none` for an arity or domain
error), and the power operation. -/
structure MathEnv (α : Type) where
  const : String → Option α
  fn : String → Option (List α → Option α)
  powOp : α → α → Option α

variable {α : Type} [LinearOrderedField α]

/-- Semantics of a binary operator.  Division by zero is a
`ZeroDivisionError`; comparisons yield 1 or 0 as numbers; the power
operator is delegated to the environment. -/
def applyBin (env : MathEnv α) (op : BinOp) (x y : α) : Except Err α :=
  match op with
  | .add => .ok (x + y)
  | .sub => .ok (x - y)
  | .mul => .ok (x * y)
  | .div => if y = 0 then .error .zeroDivErr else .ok (x / y)
  | .pow =>
    match env.powOp x y with
    | some v => .ok v
    | none => .error (.valueErr "unsupported power")
  | .lt => .ok (if x < y then 1 else 0)
  | .le => .ok (if x ≤ y then 1 else 0)
  | .gt => .ok (if y < x then 1 else 0)
  | .ge => .ok (if y ≤ x then 1 else 0)
  | .eq => .ok (if x = y then 1 else 0)
  | .ne => .ok (if x = y then 0 else 1)

mutual

/-- Modelled from the spec (§4.1): `evaluate(tree, bindings)` resolves
literals, named constants, then bindings (which include `@`), failing with
`NameError` on an identifier present in neither; evaluation is pure tree
walking. -/
def evalExpr (env : MathEnv α) (binds : String → Option α) : Expr → Except Err α
  | .num q => .ok (q : α)
  | .var s =>
    match env.const s with
    | some v => .ok v
    | none =>
      match binds s with
      | some v => .ok v
      | none => .error (.nameErr s)
  | .neg a => do
    let x ← evalExpr env binds a
    .ok (-x)
  | .bin op a b => do
    let x ← evalExpr env binds a
    let y ← evalExpr env binds b
    applyBin env op x y
  | .call f args => do
    let vs ← evalArgs env binds args
    match env.fn f with
    | some g =>
      match g vs with
      | some v => .ok v
      | none => .error (.valueErr "bad call")
    | none => .error (.nameErr f)

/-- Evaluation of an argument list, left to right. -/
def evalArgs (env : MathEnv α) (binds : String → Option α) :
    List Expr → Except Err (List α)
  | [] => .ok []
  | a :: t => do
    let v ← evalExpr env binds a
    let vs ← evalArgs env binds t
    .ok (v :: vs)

end

/-- Rational-number environment of the pure-python reference backend: no
transcendental constants or functions; powers with a nonnegative integer
exponent are supported (as the tests exercise, e.g. `2^3 = 8`). -/
def ratEnv : MathEnv ℚ where
  const := fun _ => none
  fn := fun _ => none
  powOp := fun x y =>
    if 0 ≤ y.num ∧ y.den = 1 then some (x ^ y.num.toNat) else none

/-- Modelled from the spec (§3): a keyframe's value is either a literal
number or an expression string. -/
inductive Val (α : Type) where
  | num (v : α)
  | expr (s : String)

/-- Modelled from the spec (§3): a keyframe: `pos` models the `at`
position; optional per-keyframe interpolation method; optional
method-specific parameters (`deriv` for hermite, `cp` two control points for
bezier). -/
structure Keyframe (α : Type) where
  pos : α
  value : Val α
  method : Option Method := none
  deriv : Option α := none
  cp : Option (α × α × α × α) := none

/-- Modelled from the spec (§3): a resolved point: position, numeric value
obtained from the literal-or-expression keyframe value, and the resolved
method parameters.  Transient, recomputed per query. -/
structure RPt (α : Type) where
  pos : α
  val : α
  deriv : α
  cp : Option (α × α × α × α)

/-- Modelled from the spec (§3): a channel: ordered keyframes, a default
method applied when a keyframe does not specify one, and the raw-index-mode
flag. -/
structure Channel (α : Type) where
  keyframes : List (Keyframe α)
  defaultMethod : Method := .cubic
  useIndices : Bool := false

/-- Modelled from the spec (§3): a spline: name-indexed channels in
declaration order. -/
structure Spline (α : Type) where
  channels : List (String × Channel α)

/-- Modelled from the spec (§3): the solver: name-indexed splines and the
externally supplied variables bag (`vars` models the `variables` bag). -/
structure Solver (α : Type) where
  name : String := ""
  splines : List (String × Spline α)
  vars : List (String × α) := []

/-- Modelled from the spec (§4.2, §4.4): the reportable, non-fatal
conditions: falling back to a simpler method on insufficient points, and
falling back because the active backend lacks a method. -/
inductive Report where
  | methodFallback (src tgt : Method)
  | backendFallback (m : Method)
  deriving Repr, DecidableEq

/-- Minimum of two naturals, written so it reduces in the kernel. -/
def nmin (a b : ℕ) : ℕ :=
  if a ≤ b then a else b

/-- Minimum of two field elements, written so it reduces in the kernel. -/
def amin (a b : α) : α :=
  if a ≤ b then a else b

/-- Maximum of two field elements, written so it reduces in the kernel. -/
def amax (a b : α) : α :=
  if a ≤ b then b else a

/-- Indexing of the resolved-point list with a neutral default (indices are
kept in range by the resolution pipeline). -/
def rp (pts : List (RPt α)) (i : ℕ) : RPt α :=
  pts.getD i ⟨0, 0, 0, none⟩

/-- Modelled from the spec (§4.2): the cubic Hermite interpolant with basis
functions h00, h10, h01, h11 over the local parameter. -/
def hermiteVal (v0 m0 v1 m1 u : α) : α :=
  (2 * u ^ 3 - 3 * u ^ 2 + 1) * v0 + (u ^ 3 - 2 * u ^ 2 + u) * m0 +
    (-2 * u ^ 3 + 3 * u ^ 2) * v1 + (u ^ 3 - u ^ 2) * m1

/-- Modelled from the spec (§4.2): the single Lagrange polynomial through
the given `(position, value)` points, evaluated at `x`. -/
def lagrangeEval (pts : List (α × α)) (x : α) : α :=
  ((List.range pts.length).map (fun j =>
    (pts.getD j (0, 0)).2 *
      ((List.range pts.length).map (fun i =>
        if i = j then 1
        else (x - (pts.getD i (0, 0)).1) /
          ((pts.getD j (0, 0)).1 - (pts.getD i (0, 0)).1))).prod)).sum

/-- Modelled from the spec (§4.2): the secant slope of segment `i`. -/
def secant (pts : List (RPt α)) (i : ℕ) : α :=
  ((rp pts (i + 1)).val - (rp pts i).val) /
    ((rp pts (i + 1)).pos - (rp pts i).pos)

/-- Modelled from the spec (§4.2): the monotone (pchip) derivative at
keyframe `i`: one-sided secants at the boundary keyframes; zero when the
neighbouring secants change sign; otherwise the weighted harmonic mean of
the neighbouring secants. -/
def pchipSlope (pts : List (RPt α)) (i : ℕ) : α :=
  let n := pts.length
  if i = 0 then secant pts 0
  else if i = n - 1 then secant pts (n - 2)
  else
    let d1 := secant pts (i - 1)
    let d2 := secant pts i
    if d1 * d2 ≤ 0 then 0
    else
      let h1 := (rp pts i).pos - (rp pts (i - 1)).pos
      let h2 := (rp pts (i + 1)).pos - (rp pts i).pos
      let w1 := 2 * h2 + h1
      let w2 := h2 + 2 * h1
      (w1 + w2) / (w1 / d1 + w2 / d2)

/-- Modelled from the spec (§4.2): one pure function per interpolation
method, over the resolved points, the bracketing segment index `k`, the
local parameter `u` in [0,1] and the normalized query position `x`.
`nearest` takes the closer bracketing value with ties to the left; `step`
the left value; `linear` the affine blend; `quadratic` the parabola (the
Lagrange polynomial) through the three nearest points; `cubic` a
Catmull-Rom-style cubic with tangents from neighbour differences (windows
clamped at the channel ends); `polynomial` the Lagrange polynomial through
every point; `hermite` the cubic Hermite basis with explicit endpoint
derivatives scaled by the segment width; `bezier` a cubic Bezier in `u`
whose inner control values are the left keyframe's `cp` interpreted as
offsets in value space (defaulting to the endpoint values); `pchip` the
monotone cubic Hermite.  `gaussian` requires a vectorized backend and is
rewritten to a fallback before dispatch (see `effectiveMethod`), so its
branch is unreachable and yields the left value. -/
def evalMethodAt (m : Method) (pts : List (RPt α)) (k : ℕ) (u x : α) : α :=
  let n := pts.length
  match m with
  | .nearest => if u ≤ 1 / 2 then (rp pts k).val else (rp pts (k + 1)).val
  | .step => (rp pts k).val
  | .linear => (rp pts k).val + u * ((rp pts (k + 1)).val - (rp pts k).val)
  | .quadratic =>
    let j := if k = 0 then 0 else k - 1
    lagrangeEval ([j, j + 1, j + 2].map (fun i => ((rp pts i).pos, (rp pts i).val))) x
  | .cubic =>
    let p0 := rp pts (k - 1)
    let p1 := rp pts k
    let p2 := rp pts (k + 1)
    let p3 := rp pts (nmin (k + 2) (n - 1))
    hermiteVal p1.val ((p2.val - p0.val) / 2) p2.val ((p3.val - p1.val) / 2) u
  | .polynomial => lagrangeEval (pts.map (fun r => (r.pos, r.val))) x
  | .hermite =>
    let h := (rp pts (k + 1)).pos - (rp pts k).pos
    hermiteVal (rp pts k).val (h * (rp pts k).deriv)
      (rp pts (k + 1)).val (h * (rp pts (k + 1)).deriv) u
  | .bezier =>
    let v0 := (rp pts k).val
    let v1 := (rp pts (k + 1)).val
    let y := match (rp pts k).cp with
      | some (_, yo1, _, yo2) => (v0 + yo1, v1 + yo2)
      | none => (v0, v1)
    (1 - u) ^ 3 * v0 + 3 * (1 - u) ^ 2 * u * y.1 +
      3 * (1 - u) * u ^ 2 * y.2 + u ^ 3 * v1
  | .pchip =>
    let h := (rp pts (k + 1)).pos - (rp pts k).pos
    hermiteVal (rp pts k).val (h * pchipSlope pts k)
      (rp pts (k + 1)).val (h * pchipSlope pts (k + 1)) u
  | .gaussian => (rp pts k).val

/-- Modelled from the spec (§4.2): the minimum number of points each method
requires. -/
def minPts : Method → ℕ
  | .nearest => 1
  | .step => 1
  | .linear => 2
  | .quadratic => 3
  | .cubic => 4
  | .polynomial => 2
  | .hermite => 2
  | .bezier => 2
  | .pchip => 3
  | .gaussian => 2

/-- Modelled from the spec (§4.2, §4.4): the effective method used for a
channel with `n` points.  `gaussian` is unavailable on the scalar reference
backend and falls back (reported, non-fatal); a method with fewer than its
minimum required points falls back to `linear` when two points exist, else
to `step`/constant, again reported and non-fatal. -/
def effectiveMethod (m : Method) (n : ℕ) : Method × List Report :=
  let s1 : Method × List Report :=
    match m with
    | .gaussian => (.linear, [.backendFallback .gaussian])
    | _ => (m, [])
  if n < minPts s1.1 then
    let tgt : Method := if 2 ≤ n then .linear else .step
    (tgt, s1.2 ++ [.methodFallback s1.1 tgt])
  else s1

/-- Modelled from the spec (§4.3): resolving one keyframe value: a literal
is used directly, an expression is parsed and evaluated against the current
bindings. -/
def resolveVal (env : MathEnv α) (binds : String → Option α) : Val α → Except Err α
  | .num v => .ok v
  | .expr s => do
    let t ← parseExpression s
    evalExpr env binds t

/-- Modelled from the spec (§4.3): resolving every keyframe of a channel to
a `RPt` (the `deriv` parameter defaults to 0, `cp` is carried through),
left to right. -/
def resolvePoints (env : MathEnv α) (binds : String → Option α) :
    List (Keyframe α) → Except Err (List (RPt α))
  | [] => .ok []
  | kf :: t => do
    let v ← resolveVal env binds kf.value
    let rest ← resolvePoints env binds t
    .ok (⟨kf.pos, v, kf.deriv.getD 0, kf.cp⟩ :: rest)

/-- Modelled from the spec (§4.3): the channel query algorithm.  In
raw-index mode positions are normalized by the channel's own min/max `at`
before bracketing, and the query position published to `@` is the
normalized one.  Keyframes are resolved (expressions evaluated with `@` and
the caller's variables), the bracketing segment is located in the sorted
positions, queries outside the span clamp to the boundary value, the
method of the left bracketing keyframe (or the channel default) is rewritten
by the fallback rules, and the method is dispatched on the local parameter
`u`.  The reportable fallback notices are returned with the value. -/
def Channel.resolveAt (env : MathEnv α) (vars : String → Option α)
    (ch : Channel α) (p : α) : Except Err (α × List Report) :=
  let kfs := ch.keyframes
  let n := kfs.length
  if n = 0 then .error (.valueErr "channel has no keyframes")
  else
    let xsRaw := kfs.map (·.pos)
    let x0 := xsRaw.headD 0
    let minA := xsRaw.foldl amin x0
    let maxA := xsRaw.foldl amax x0
    let norm : α → α := fun a =>
      if ch.useIndices then (a - minA) / (maxA - minA) else a
    let pN := norm p
    let binds : String → Option α := fun s => if s = "@" then some pN else vars s
    do
      let raw ← resolvePoints env binds kfs
      let rpts := raw.map (fun r => { r with pos := norm r.pos })
      let xs := rpts.map (·.pos)
      let k := xs.countP (fun a => decide (a ≤ pN)) - 1
      let mRaw :=
        (kfs.getD (nmin k (n - 1)) ⟨0, .num 0, none, none, none⟩).method.getD
          ch.defaultMethod
      let em := effectiveMethod mRaw n
      if n = 1 then .ok ((rp rpts 0).val, em.2)
      else if pN ≤ (rp rpts 0).pos then .ok ((rp rpts 0).val, em.2)
      else if (rp rpts (n - 1)).pos ≤ pN then .ok ((rp rpts (n - 1)).val, em.2)
      else
        let u := (pN - (rp rpts k).pos) / ((rp rpts (k + 1)).pos - (rp rpts k).pos)
        .ok (evalMethodAt em.1 rpts k u pN, em.2)

/-- The resolved numeric value of a channel at a query position (fallback
reports dropped). -/
def Channel.valueAt (env : MathEnv α) (vars : String → Option α)
    (ch : Channel α) (p : α) : Except Err α :=
  (ch.resolveAt env vars p).map Prod.fst

/-- Lookup in an ordered bindings list (most recent first). -/
def lookupVar (l : List (String × α)) (s : String) : Option α :=
  (l.find? (fun q => q.1 == s)).map (·.2)

/-- Modelled from the spec (§4.3): resolving the channels of one spline in
declaration order, publishing each resolved value under
`spline.channel` and the bare channel name before resolving the next
channel.  Returns the updated bindings and this spline's results. -/
def resolveChannels (env : MathEnv α) (sn : String) (b : List (String × α))
    (p : α) : List (String × Channel α) →
    Except Err (List (String × α) × List (String × α))
  | [] => .ok (b, [])
  | (cn, ch) :: t => do
    let v ← ch.valueAt env (lookupVar b) p
    let b2 := (cn, v) :: (sn ++ "." ++ cn, v) :: b
    let r ← resolveChannels env sn b2 p t
    .ok (r.1, (cn, v) :: r.2)

/-- Modelled from the spec (§4.3): resolving every spline in declaration
order, threading the accumulated cross-channel bindings. -/
def resolveSplines (env : MathEnv α) (b : List (String × α)) (p : α) :
    List (String × Spline α) → Except Err (List (String × List (String × α)))
  | [] => .ok []
  | (sn, sp) :: t => do
    let r ← resolveChannels env sn b p sp.channels
    let rest ← resolveSplines env r.1 p t
    .ok ((sn, r.2) :: rest)

/-- Modelled from the spec (§6): `solve(position)` returns the mapping from
spline name to channel name to resolved number, starting from the solver's
variables bag. -/
def Solver.solve (s : Solver α) (env : MathEnv α) (p : α) :
    Except Err (List (String × List (String × α))) :=
  resolveSplines env s.vars p s.splines

/-- Modelled from the spec (§6, §4.4): `solve_batch(positions)`: the batched
evaluation loop of the reference backend, resolving the positions in
order. -/
def Solver.solveBatch (s : Solver α) (env : MathEnv α) :
    List α → Except Err (List (List (String × List (String × α))))
  | [] => .ok []
  | p :: t => do
    let r ← s.solve env p
    let rest ← s.solveBatch env t
    .ok (r :: rest)

/-- Ordered insertion of a keyframe by position. -/
def insertKeyframe (kf : Keyframe α) : List (Keyframe α) → List (Keyframe α)
  | [] => [kf]
  | k :: t => if kf.pos < k.pos then kf :: k :: t else k :: insertKeyframe kf t

/-- Modelled from the spec (§3, §7): keyframe insertion validates `at`
uniqueness within the channel (`ValueError` on a duplicate) and keeps the
sequence sorted. -/
def Channel.addKeyframe (ch : Channel α) (kf : Keyframe α) :
    Except Err (Channel α) :=
  if ch.keyframes.any (fun k => decide (k.pos = kf.pos)) then
    .error (.valueErr "duplicate keyframe position")
  else .ok { ch with keyframes := insertKeyframe kf ch.keyframes }

/-- Modelled from the spec (§3): keyframe removal by position. -/
def Channel.removeKeyframe (ch : Channel α) (a : α) : Channel α :=
  { ch with keyframes := ch.keyframes.filter (fun k => decide (k.pos ≠ a)) }

/-- The channel invariant: `at` positions pairwise distinct and sorted
ascending (strict sorting states both at once). -/
def ChannelInv (ch : Channel α) : Prop :=
  (ch.keyframes.map (·.pos)).Pairwise (· < ·)

/-- Keyframes holding literal values only, built from `(at, value)` pairs. -/
def litKeyframes (pts : List (α × α)) : List (Keyframe α) :=
  pts.map (fun q => ⟨q.1, .num q.2, none, none, none⟩)

/-- A channel of literal keyframes with a uniform method (keyframes do not
override it). -/
def litChannel (m : Method) (pts : List (α × α)) : Channel α :=
  ⟨litKeyframes pts, m, false⟩

/-- The empty variable bindings. -/
def noVars : String → Option α := fun _ => none

/-- The resolved points of a list of literal `(at, value)` pairs. -/
def litRPts (pts : List (α × α)) : List (RPt α) :=
  pts.map (fun q => ⟨q.1, q.2, 0, none⟩)

/-- The eight interpolating methods named by the spec's keyframe-exactness
property (`gaussian` is excluded there as not strictly interpolating, and
`step` is not listed). -/
def interpolating8 : List Method :=
  [.nearest, .linear, .cubic, .hermite, .bezier, .pchip, .polynomial, .quadratic]

/-- Modelled from the CLI tests (`create_solver_from_args`): the solver the
command line builds from literal keyframes: solver "CommandLine" with one
spline "default" holding one channel "value" (channel default method per
the library default). -/
def cliSolver (pts : List (α × α)) : Solver α :=
  { name := "CommandLine",
    splines := [("default", ⟨[("value", litChannel .cubic pts)]⟩)],
    vars := [] }

/-- The raw-index-mode channel of the CLI test `test_use_indices_mode`:
keyframes 0:0, 5:5, 10:10 with `--use-indices`. -/
def idxChannel : Channel ℚ :=
  { keyframes := litKeyframes [(0, 0), (5, 5), (10, 10)],
    defaultMethod := .cubic,
    useIndices := true }

/-- A raw-index-mode channel whose keyframe values are the expression `@`,
exposing the query position that the evaluator publishes. -/
def idxExprChannel : Channel ℚ :=
  { keyframes := [⟨0, .expr "@", none, none, none⟩,
                  ⟨10, .expr "@", none, none, none⟩],
    defaultMethod := .cubic,
    useIndices := true }

/-- Classifier for results that failed with a syntax error (Python
`SyntaxError`). -/
def isSynErr {β : Type} : Except Err β → Bool
  | .error (.synErr _) => true
  | _ => false

mutual

/-- Whether every call in an expression tree uses a whitelisted function
name (the parser is meant to guarantee this). -/
def callsWhitelisted : Expr → Bool
  | .num _ => true
  | .var _ => true
  | .neg a => callsWhitelisted a
  | .bin _ a b => callsWhitelisted a && callsWhitelisted b
  | .call f args => decide (f ∈ funcWhitelist) && argsWhitelisted args

/-- Whitelist check over an argument list. -/
def argsWhitelisted : List Expr → Bool
  | [] => true
  | a :: t => callsWhitelisted a && argsWhitelisted t

end

/-! ### Visualization (embedded from src/visualization.py) -/

/-- Embedded from `src/visualization.py`: the error outcomes of the plotting
entry points.  `importError` models the `ImportError` raised when matplotlib
is missing; `typeError` models a Python `TypeError`; `evalError` models any
exception escaping the interpolator. -/
inductive VizErr where
  | importError
  | typeError (msg : String)
  | evalError (msg : String)
  deriving Repr, DecidableEq

/-- The `KeyframeInterpolator` interface the visualization module consumes:
`_get_keyframe_points(channels)` and `get_value(t, method, channels)`, each
of which may raise (modelled as `Except`); the `channels` binding is folded
into the closure. -/
structure Interp (γ : Type) where
  getKeyframePoints : Except String (List (γ × γ))
  getValue : γ → String → Except String γ

/-- The parts of a matplotlib figure the module constructs: the labeled
plotted curves, the keyframe scatter points, and the title. -/
structure Figure (γ : Type) where
  lines : List (String × List γ)
  keyframePoints : List (γ × γ)
  title : String

/-- Embedded from `src/visualization.py`: the default method list of
`plot_interpolation_comparison`. -/
def defaultMethods : List String :=
  ["nearest", "linear", "polynomial", "quadratic",
   "hermite", "bezier", "pchip", "cubic"]

/-- Embedded from `src/visualization.py`: the list comprehension
`[interpolator.get_value(t, method, channels) for t in t_values]`; an
exception from any element aborts the whole comprehension. -/
def evalCurve {γ : Type} (interp : Interp γ) (tvs : List γ) (m : String) :
    Except String (List γ) :=
  match tvs with
  | [] => .ok []
  | t :: rest => do
    let v ← interp.getValue t m
    let vs ← evalCurve interp rest m
    .ok (v :: vs)

/-- Embedded from `src/visualization.py`: the per-method plot loop of
`plot_interpolation_comparison`: each method's curve is computed inside a
`try`; on success the curve is plotted, on any exception the method is
skipped and a notice is printed.  Returns the plotted lines and the printed
notices, each in iteration order. -/
def plotLoop {γ : Type} (interp : Interp γ) (tvs : List γ) :
    List String → List (String × List γ) × List String
  | [] => ([], [])
  | m :: ms =>
    match evalCurve interp tvs m with
    | .ok vs =>
      let r := plotLoop interp tvs ms
      ((m, vs) :: r.1, r.2)
    | .error e =>
      let r := plotLoop interp tvs ms
      (r.1, ("Skipping " ++ m ++ " due to: " ++ e) :: r.2)

/-- Embedded from `src/visualization.py` lines 11-63
(`plot_interpolation_comparison`): raises `ImportError` when matplotlib is
unavailable, before touching the interpolator; with an explicit method list
it fetches the keyframe points (exceptions propagate), then runs the
skip-on-failure plot loop and returns the figure together with the printed
notices.  When `methods` is `None` the source rebinds the local name
`methods` to the imported `methods` module (`from . import methods`), so the
later `for method in methods` iterates a module and raises `TypeError`;
that branch is embedded as the corresponding error. -/
def plot_interpolation_comparison {γ : Type} (hasMatplotlib : Bool)
    (interp : Interp γ) (tValues : List γ) (methods : Option (List String))
    (title : String := "Interpolation Methods Comparison") :
    Except VizErr (Figure γ × List String) :=
  if !hasMatplotlib then .error .importError
  else
    match methods with
    | none =>
      match interp.getKeyframePoints with
      | .error e => .error (.evalError e)
      | .ok _ => .error (.typeError "argument of type module is not iterable")
    | some ms =>
      match interp.getKeyframePoints with
      | .error e => .error (.evalError e)
      | .ok kps =>
        let r := plotLoop interp tValues ms
        .ok (⟨r.1, kps, title⟩, r.2)

/-- Embedded from `src/visualization.py` lines 65-104
(`plot_single_interpolation`): raises `ImportError` when matplotlib is
unavailable, before touching the interpolator; otherwise fetches the
keyframe points and the single method's curve with no exception handling
(failures propagate), then returns the figure (the source's
`method.capitalize()` in the default title is not modelled, the default
title keeps the method name verbatim). -/
def plot_single_interpolation {γ : Type} (hasMatplotlib : Bool)
    (interp : Interp γ) (tValues : List γ) (method : String := "cubic")
    (title : Option String := none) :
    Except VizErr (Figure γ × List String) :=
  if !hasMatplotlib then .error .importError
  else
    let t := title.getD (method ++ " Interpolation")
    match interp.getKeyframePoints with
    | .error e => .error (.evalError e)
    | .ok kps =>
      match evalCurve interp tValues method with
      | .error e => .error (.evalError e)
      | .ok vs => .ok (⟨[(method, vs)], kps, t⟩, [])

/-! ### Helper lemmas -/

theorem getD_of_lt {β : Type} (l : List β) (d : β) (j : ℕ) (h : j < l.length) :
    l.getD j d = l.get ⟨j, h⟩ := by
  rw [List.getD_eq_get?, List.get?_eq_get h]
  rfl

theorem litRPts_rp (pts : List (α × α)) (j : ℕ) :
    rp (litRPts pts) j = ⟨(pts.getD j (0, 0)).1, (pts.getD j (0, 0)).2, 0, none⟩ := by
  have h := List.getD_map pts ((0, 0) : α × α)
    (f := fun q => (⟨q.1, q.2, 0, none⟩ : RPt α)) (n := j)
  simpa [rp, litRPts] using h

theorem litRPts_length (pts : List (α × α)) : (litRPts pts).length = pts.length := by
  simp [litRPts]

theorem resolvePoints_lit (env : MathEnv α) (binds : String → Option α)
    (pts : List (α × α)) :
    resolvePoints env binds (litKeyframes pts) = .ok (litRPts pts) := by
  induction pts with
  | nil => rfl
  | cons q t ih =>
    simp only [litKeyframes, List.map_cons] at ih ⊢
    simp only [resolvePoints, resolveVal, Bind.bind, Except.bind, ih, litRPts,
      List.map_cons, Option.getD_none]

theorem map_pos_id (l : List (RPt α)) :
    l.map (fun r => { r with pos := r.pos }) = l := by
  induction l with
  | nil => rfl
  | cons a t ih =>
    cases a
    simp [ih]

theorem countP_bracket :
    ∀ (l : List α), l.Pairwise (· < ·) → ∀ (k : ℕ) (p : α), k + 1 < l.length →
      l.getD k 0 ≤ p → p < l.getD (k + 1) 0 →
      l.countP (fun a => decide (a ≤ p)) = k + 1 := by
  intro l
  induction l with
  | nil =>
    intro _ k p hk
    simp at hk
  | cons a t ih =>
    intro hl k p hk h1 h2
    rcases List.pairwise_cons.mp hl with ⟨ha, hp⟩
    cases k with
    | zero =>
      simp only [List.getD_cons_zero] at h1
      simp only [List.getD_cons_succ] at h2
      have ht : 0 < t.length := by
        simp at hk
        omega
      obtain ⟨b, t', rfl⟩ : ∃ b t', t = b :: t' := by
        cases t with
        | nil => simp at ht
        | cons b t' => exact ⟨b, t', rfl⟩
      simp only [List.getD_cons_zero] at h2
      rw [List.countP_cons, List.countP_eq_zero.mpr ?_]
      · simp [h1]
      · intro c hc
        have hpc : p < c := by
          rcases List.mem_cons.mp hc with rfl | hc'
          · exact h2
          · exact lt_trans h2 ((List.pairwise_cons.mp hp).1 c hc')
        simpa using not_le.mpr hpc
    | succ j =>
      have hj : j + 1 < t.length := by
        simp at hk
        omega
      simp only [List.getD_cons_succ] at h1 h2
      have hjl : j < t.length := Nat.lt_of_succ_lt hj
      have hat : a ≤ p := by
        have hmem : t.getD j 0 ∈ t := by
          rw [getD_of_lt t 0 j hjl]
          exact List.get_mem t j hjl
        exact le_trans (le_of_lt (ha _ hmem)) h1
      rw [List.countP_cons, ih hp j p hj h1 h2]
      simp [hat]

theorem sum_map_range_single (g : ℕ → α) :
    ∀ (n i : ℕ), i < n → (∀ j, j < n → j ≠ i → g j = 0) →
      ((List.range n).map g).sum = g i := by
  intro n
  induction n with
  | zero =>
    intro i hi
    simp at hi
  | succ n ih =>
    intro i hi h0
    rw [List.range_succ, List.map_append, List.sum_append]
    simp only [List.map_cons, List.map_nil, List.sum_cons, List.sum_nil]
    by_cases hin : i = n
    · subst hin
      rw [List.sum_eq_zero ?_, zero_add, add_zero]
      intro y hy
      rcases List.mem_map.mp hy with ⟨j, hj, rfl⟩
      have hjn := List.mem_range.mp hj
      exact h0 j (Nat.lt_succ_of_lt hjn) (Nat.ne_of_lt hjn)
    · have hi' : i < n := by omega
      rw [ih i hi' (fun j hj hne => h0 j (Nat.lt_succ_of_lt hj) hne),
        h0 n (Nat.lt_succ_self n) (fun h => hin h.symm)]
      ring

theorem lagrangeEval_exact (pts : List (α × α))
    (hne : (pts.map Prod.fst).Pairwise (· ≠ ·)) (i : ℕ) (hi : i < pts.length) :
    lagrangeEval pts ((pts.getD i (0, 0)).1) = (pts.getD i (0, 0)).2 := by
  have hneq : ∀ j k, j < pts.length → k < pts.length → j ≠ k →
      (pts.getD j (0, 0)).1 ≠ (pts.getD k (0, 0)).1 := by
    intro j k hjl hkl hjk
    have hpair := List.pairwise_iff_get.mp hne
    have hlen : (pts.map Prod.fst).length = pts.length := by simp
    have hget : ∀ (m : ℕ) (hm : m < pts.length),
        (pts.map Prod.fst).get ⟨m, by omega⟩ = (pts.getD m (0, 0)).1 := by
      intro m hm
      rw [List.get_map, getD_of_lt pts (0, 0) m hm]
    rcases Nat.lt_or_ge j k with h | h
    · have := hpair ⟨j, by omega⟩ ⟨k, by omega⟩ (by simpa using h)
      rwa [hget j hjl, hget k hkl] at this
    · have hkj : k < j := by omega
      have := hpair ⟨k, by omega⟩ ⟨j, by omega⟩ (by simpa using hkj)
      rw [hget k hkl, hget j hjl] at this
      exact this.symm
  unfold lagrangeEval
  rw [sum_map_range_single _ pts.length i hi ?_]
  · rw [List.prod_eq_one ?_, mul_one]
    intro y hy
    rcases List.mem_map.mp hy with ⟨k, hk, rfl⟩
    by_cases hki : k = i
    · simp [hki]
    · have hkl := List.mem_range.mp hk
      have hsub : (pts.getD i (0, 0)).1 - (pts.getD k (0, 0)).1 ≠ 0 :=
        sub_ne_zero.mpr (hneq i k hi hkl (fun h => hki h.symm))
      rw [if_neg hki, div_self hsub]
  · intro j hj hne'
    rw [List.prod_eq_zero ?_, mul_zero]
    refine List.mem_map.mpr ⟨i, List.mem_range.mpr hi, ?_⟩
    rw [if_neg (fun h => hne' h.symm), sub_self, zero_div]

theorem hermiteVal_zero (v0 m0 v1 m1 : α) : hermiteVal v0 m0 v1 m1 0 = v0 := by
  norm_num [hermiteVal]

theorem litKeyframes_length (pts : List (α × α)) :
    (litKeyframes pts).length = pts.length := by
  simp [litKeyframes]

theorem litRPts_map_pos (pts : List (α × α)) :
    (litRPts pts).map (fun r => r.pos) = pts.map Prod.fst := by
  simp [litRPts, List.map_map]

theorem litKeyframes_getD_method (pts : List (α × α)) (j : ℕ) :
    ((litKeyframes pts).getD j ⟨0, .num 0, none, none, none⟩).method = none := by
  have h := List.getD_map pts ((0, 0) : α × α)
    (f := fun q => (⟨q.1, .num q.2, none, none, none⟩ : Keyframe α)) (n := j)
  have h2 := congrArg Keyframe.method h
  simpa [litKeyframes] using h2

theorem sorted_fst_lt (pts : List (α × α))
    (hs : (pts.map Prod.fst).Pairwise (· < ·)) (i j : ℕ) (hij : i < j)
    (hj : j < pts.length) :
    (pts.getD i (0, 0)).1 < (pts.getD j (0, 0)).1 := by
  have hpair := List.pairwise_iff_get.mp hs
  have hi : i < pts.length := lt_trans hij hj
  have hget : ∀ (m : ℕ) (hm : m < pts.length),
      (pts.map Prod.fst).get ⟨m, by simpa using hm⟩ = (pts.getD m (0, 0)).1 := by
    intro m hm
    rw [List.get_map, getD_of_lt pts (0, 0) m hm]
  have := hpair ⟨i, by simpa using hi⟩ ⟨j, by simpa using hj⟩ (by simpa using hij)
  rwa [hget i hi, hget j hj] at this

theorem sorted_fst_le (pts : List (α × α))
    (hs : (pts.map Prod.fst).Pairwise (· < ·)) (i j : ℕ) (hij : i ≤ j)
    (hj : j < pts.length) :
    (pts.getD i (0, 0)).1 ≤ (pts.getD j (0, 0)).1 := by
  rcases Nat.lt_or_ge i j with h | h
  · exact le_of_lt (sorted_fst_lt pts hs i j h hj)
  · have : i = j := le_antisymm hij h
    rw [this]

/-- Characterization of `Channel.resolveAt` on a literal uniform-method
channel at a query that falls strictly inside bracketing segment `k`:
the pipeline dispatches the effective method at the local parameter. -/
theorem resolveAt_lit_dispatch (env : MathEnv α) (vars : String → Option α)
    (m : Method) (pts : List (α × α))
    (hs : (pts.map Prod.fst).Pairwise (· < ·)) (k : ℕ) (p : α)
    (hk : k + 1 < pts.length)
    (h0 : (pts.getD 0 (0, 0)).1 < p)
    (h1 : (pts.getD k (0, 0)).1 ≤ p)
    (h2 : p < (pts.getD (k + 1) (0, 0)).1) :
    (litChannel m pts).resolveAt env vars p =
      .ok (evalMethodAt (effectiveMethod m pts.length).1 (litRPts pts) k
            ((p - (pts.getD k (0, 0)).1) /
              ((pts.getD (k + 1) (0, 0)).1 - (pts.getD k (0, 0)).1)) p,
          (effectiveMethod m pts.length).2) := by
  have hcount : (pts.map Prod.fst).countP (fun a => decide (a ≤ p)) = k + 1 := by
    have hsorted := hs
    apply countP_bracket (pts.map Prod.fst) hsorted k p
    · simpa using hk
    · rw [List.getD_map pts ((0, 0) : α × α) (f := Prod.fst)]
      exact h1
    · rw [List.getD_map pts ((0, 0) : α × α) (f := Prod.fst)]
      exact h2
  have hn2 : 2 ≤ pts.length := by omega
  have hncl : ¬ p ≤ (rp (litRPts pts) 0).pos := by
    rw [litRPts_rp]
    exact not_le.mpr h0
  have hncr : ¬ (rp (litRPts pts) (pts.length - 1)).pos ≤ p := by
    rw [litRPts_rp]
    apply not_le.mpr
    calc p < (pts.getD (k + 1) (0, 0)).1 := h2
      _ ≤ (pts.getD (pts.length - 1) (0, 0)).1 :=
        sorted_fst_le pts hs (k + 1) (pts.length - 1) (by omega) (by omega)
  simp only [Channel.resolveAt, litChannel, litKeyframes_length]
  rw [if_neg (by omega : ¬ pts.length = 0)]
  simp only [Bool.false_eq_true, if_false, resolvePoints_lit, Bind.bind, Except.bind,
    map_pos_id, litRPts_map_pos, hcount, litRPts_length]
  rw [if_neg (by omega : ¬ pts.length = 1), if_neg hncl, if_neg hncr]
  simp only [Nat.add_sub_cancel, litKeyframes_getD_method, Option.getD_none, litRPts_rp]

/-- Characterization of `Channel.resolveAt` on a literal channel at or
before the first keyframe: the query clamps to the first value. -/
theorem resolveAt_lit_clampLeft (env : MathEnv α) (vars : String → Option α)
    (m : Method) (pts : List (α × α)) (hn : pts ≠ []) (p : α)
    (hp : p ≤ (pts.getD 0 (0, 0)).1) :
    (litChannel m pts).resolveAt env vars p =
      .ok ((pts.getD 0 (0, 0)).2, (effectiveMethod m pts.length).2) := by
  have hlen : 0 < pts.length := List.length_pos.mpr hn
  simp only [Channel.resolveAt, litChannel, litKeyframes_length]
  rw [if_neg (by omega : ¬ pts.length = 0)]
  simp only [Bool.false_eq_true, if_false, resolvePoints_lit, Bind.bind, Except.bind,
    map_pos_id, litKeyframes_getD_method, Option.getD_none, litRPts_rp]
  by_cases h1 : pts.length = 1
  · rw [if_pos h1]
  · rw [if_neg h1, if_pos hp]

/-- Characterization of `Channel.resolveAt` on a literal sorted channel at
or after the last keyframe: the query clamps to the last value. -/
theorem resolveAt_lit_clampRight (env : MathEnv α) (vars : String → Option α)
    (m : Method) (pts : List (α × α))
    (hs : (pts.map Prod.fst).Pairwise (· < ·)) (hn : pts ≠ []) (p : α)
    (hp : (pts.getD (pts.length - 1) (0, 0)).1 ≤ p) :
    (litChannel m pts).resolveAt env vars p =
      .ok ((pts.getD (pts.length - 1) (0, 0)).2, (effectiveMethod m pts.length).2) := by
  have hlen : 0 < pts.length := List.length_pos.mpr hn
  simp only [Channel.resolveAt, litChannel, litKeyframes_length]
  rw [if_neg (by omega : ¬ pts.length = 0)]
  simp only [Bool.false_eq_true, if_false, resolvePoints_lit, Bind.bind, Except.bind,
    map_pos_id, litKeyframes_getD_method, Option.getD_none, litRPts_rp]
  by_cases h1 : pts.length = 1
  · rw [if_pos h1]
    have h0 : pts.length - 1 = 0 := by omega
    rw [h0]
  · have hncl : ¬ p ≤ (pts.getD 0 (0, 0)).1 := by
      apply not_le.mpr
      calc (pts.getD 0 (0, 0)).1
          < (pts.getD (pts.length - 1) (0, 0)).1 :=
            sorted_fst_lt pts hs 0 (pts.length - 1) (by omega) (by omega)
        _ ≤ p := hp
    rw [if_neg h1, if_neg hncl, if_pos hp]

theorem evalMethodAt_zero (m : Method)
    (hm : m ∈ [Method.nearest, .step, .linear, .cubic, .hermite, .bezier, .pchip, .gaussian])
    (pts : List (RPt α)) (k : ℕ) (x : α) :
    evalMethodAt m pts k 0 x = (rp pts k).val := by
  simp only [List.mem_cons, List.not_mem_nil, or_false] at hm
  rcases hm with rfl | rfl | rfl | rfl | rfl | rfl | rfl | rfl
  · norm_num [evalMethodAt]
  · rfl
  · norm_num [evalMethodAt]
  · simp [evalMethodAt, hermiteVal_zero]
  · simp [evalMethodAt, hermiteVal_zero]
  · rcases h : (rp pts k).cp with _ | ⟨a, b, c, d⟩ <;> norm_num [evalMethodAt, h]
  · simp [evalMethodAt, hermiteVal_zero]
  · rfl

theorem litRPts_roundtrip (pts : List (α × α)) :
    (litRPts pts).map (fun r => (r.pos, r.val)) = pts := by
  induction pts with
  | nil => rfl
  | cons q t ih =>
    cases q
    simp [litRPts] at ih ⊢
    exact ih

theorem effectiveMethod_no_fallback (m : Method) (hm : m ≠ .gaussian) (n : ℕ)
    (h : ¬ n < minPts m) : effectiveMethod m n = (m, []) := by
  cases m
  case gaussian => exact absurd rfl hm
  all_goals simp_all [effectiveMethod, minPts]

theorem effectiveMethod_fallback_linear (m : Method) (hm : m ≠ .gaussian)
    (n : ℕ) (h1 : n < minPts m) (h2 : 2 ≤ n) :
    effectiveMethod m n = (.linear, [.methodFallback m .linear]) := by
  cases m
  case gaussian => exact absurd rfl hm
  all_goals simp only [minPts] at h1
  all_goals simp [effectiveMethod, minPts, h1, h2]

/-- Every effective interpolating method, dispatched at local parameter 0 on
an interior segment of a literal sorted channel, returns the left bracketing
value, which is the keyframe value there. -/
theorem dispatch_exact (m : Method) (hm : m ∈ interpolating8)
    (pts : List (α × α)) (hs : (pts.map Prod.fst).Pairwise (· < ·))
    (i : ℕ) (hi0 : 0 < i) (hi1 : i + 1 < pts.length) :
    evalMethodAt (effectiveMethod m pts.length).1 (litRPts pts) i 0
      ((pts.getD i (0, 0)).1) = (pts.getD i (0, 0)).2 := by
  have hn3 : 3 ≤ pts.length := by omega
  have hlin : evalMethodAt .linear (litRPts pts) i 0 ((pts.getD i (0, 0)).1)
      = (pts.getD i (0, 0)).2 := by
    rw [evalMethodAt_zero .linear (by simp) (litRPts pts) i, litRPts_rp]
  have hquad : evalMethodAt .quadratic (litRPts pts) i 0 ((pts.getD i (0, 0)).1)
      = (pts.getD i (0, 0)).2 := by
    simp only [evalMethodAt, if_neg (Nat.pos_iff_ne_zero.mp hi0), litRPts_rp,
      List.map_cons, List.map_nil]
    have hi' : i - 1 + 1 = i := Nat.succ_pred_eq_of_pos hi0
    have hi'' : i - 1 + 1 + 1 = i + 1 := by omega
    rw [hi', hi'']
    have hx := lagrangeEval_exact
      [((pts.getD (i - 1) (0, 0)).1, (pts.getD (i - 1) (0, 0)).2),
       ((pts.getD i (0, 0)).1, (pts.getD i (0, 0)).2),
       ((pts.getD (i + 1) (0, 0)).1, (pts.getD (i + 1) (0, 0)).2)] ?_ 1 (by norm_num)
    · simpa using hx
    · have l1 : (pts.getD (i - 1) (0, 0)).1 ≠ (pts.getD i (0, 0)).1 :=
        ne_of_lt (sorted_fst_lt pts hs (i - 1) i (by omega) (by omega))
      have l2 : (pts.getD (i - 1) (0, 0)).1 ≠ (pts.getD (i + 1) (0, 0)).1 :=
        ne_of_lt (sorted_fst_lt pts hs (i - 1) (i + 1) (by omega) (by omega))
      have l3 : (pts.getD i (0, 0)).1 ≠ (pts.getD (i + 1) (0, 0)).1 :=
        ne_of_lt (sorted_fst_lt pts hs i (i + 1) (by omega) (by omega))
      simp [List.pairwise_cons]
      refine ⟨⟨?_, ?_⟩, ?_⟩
      · simpa using l1
      · simpa using l2
      · simpa using l3
  have hpoly : evalMethodAt .polynomial (litRPts pts) i 0 ((pts.getD i (0, 0)).1)
      = (pts.getD i (0, 0)).2 := by
    simp only [evalMethodAt, litRPts_roundtrip]
    exact lagrangeEval_exact pts (hs.imp ne_of_lt) i (by omega)
  simp only [interpolating8, List.mem_cons, List.not_mem_nil, or_false] at hm
  rcases hm with rfl | rfl | rfl | rfl | rfl | rfl | rfl | rfl
  · rw [effectiveMethod_no_fallback .nearest (by simp) pts.length
      (by simp only [minPts]; omega)]
    rw [evalMethodAt_zero .nearest (by simp) (litRPts pts) i, litRPts_rp]
  · rw [effectiveMethod_no_fallback .linear (by simp) pts.length
      (by simp only [minPts]; omega)]
    exact hlin
  · by_cases h4 : pts.length < 4
    · rw [effectiveMethod_fallback_linear .cubic (by simp) pts.length
        (by simpa only [minPts] using h4) (by omega)]
      exact hlin
    · rw [effectiveMethod_no_fallback .cubic (by simp) pts.length
        (by simpa only [minPts] using h4)]
      rw [evalMethodAt_zero .cubic (by simp) (litRPts pts) i, litRPts_rp]
  · rw [effectiveMethod_no_fallback .hermite (by simp) pts.length
      (by simp only [minPts]; omega)]
    rw [evalMethodAt_zero .hermite (by simp) (litRPts pts) i, litRPts_rp]
  · rw [effectiveMethod_no_fallback .bezier (by simp) pts.length
      (by simp only [minPts]; omega)]
    rw [evalMethodAt_zero .bezier (by simp) (litRPts pts) i, litRPts_rp]
  · rw [effectiveMethod_no_fallback .pchip (by simp) pts.length
      (by simp only [minPts]; omega)]
    rw [evalMethodAt_zero .pchip (by simp) (litRPts pts) i, litRPts_rp]
  · rw [effectiveMethod_no_fallback .polynomial (by simp) pts.length
      (by simp only [minPts]; omega)]
    exact hpoly
  · rw [effectiveMethod_no_fallback .quadratic (by simp) pts.length
      (by simp only [minPts]; omega)]
    exact hquad

/-- Keyframe-position exactness of the channel query for a literal sorted
channel under any of the eight interpolating methods. -/
theorem valueAt_exact_keyframe {β : Type} [LinearOrderedField β]
    (env : MathEnv β) (vars : String → Option β) (m : Method)
    (hm : m ∈ interpolating8) (pts : List (β × β))
    (hs : (pts.map Prod.fst).Pairwise (· < ·)) (i : ℕ) (hi : i < pts.length) :
    (litChannel m pts).valueAt env vars (pts.getD i (0, 0)).1
      = .ok (pts.getD i (0, 0)).2 := by
  have hne : pts ≠ [] := List.ne_nil_of_length_pos (by omega)
  by_cases hi0 : i = 0
  · subst hi0
    rw [Channel.valueAt, resolveAt_lit_clampLeft env vars m pts hne _ le_rfl]
    rfl
  · by_cases hil : i = pts.length - 1
    · rw [Channel.valueAt, hil,
        resolveAt_lit_clampRight env vars m pts hs hne _ le_rfl]
      rfl
    · have hint : 0 < i := Nat.pos_of_ne_zero hi0
      have hi1 : i + 1 < pts.length := by omega
      rw [Channel.valueAt, resolveAt_lit_dispatch env vars m pts hs i _ hi1
        (sorted_fst_lt pts hs 0 i hint (by omega)) le_rfl
        (sorted_fst_lt pts hs i (i + 1) (by omega) hi1)]
      rw [sub_self, zero_div, Except.map]
      rw [dispatch_exact m hm pts hs i hint hi1]

/-! ### Claim theorems -/

/-- C1: for every channel of literal keyframes (pairwise-distinct, sorted
`at` positions) and every interpolating method (nearest, linear, cubic,
hermite, bezier, pchip, polynomial, quadratic), querying the channel at a
position exactly equal to a keyframe's `at` returns that keyframe's value
(exactly, in the exact-arithmetic model); in particular the CLI solver built
from keyframes 0:0, 0.5:5, 1:10 solves to 0.0, 5.0 and 10.0 at positions
0.0, 0.5 and 1.0. -/
theorem c1_solve_exact_at_keyframes :
    (∀ (β : Type) [LinearOrderedField β] (env : MathEnv β)
        (vars : String → Option β) (m : Method), m ∈ interpolating8 →
        ∀ (pts : List (β × β)), (pts.map Prod.fst).Pairwise (· < ·) →
        ∀ i, i < pts.length →
        (litChannel m pts).valueAt env vars (pts.getD i (0, 0)).1
          = .ok (pts.getD i (0, 0)).2)
    ∧ (cliSolver [(0, 0), (1/2, 5), (1, 10)] : Solver ℚ).solve ratEnv 0
        = .ok [("default", [("value", 0)])]
    ∧ (cliSolver [(0, 0), (1/2, 5), (1, 10)] : Solver ℚ).solve ratEnv (1/2)
        = .ok [("default", [("value", 5)])]
    ∧ (cliSolver [(0, 0), (1/2, 5), (1, 10)] : Solver ℚ).solve ratEnv 1
        = .ok [("default", [("value", 10)])] := by
  refine ⟨?_, ?_, ?_, ?_⟩
  · intro β _ env vars m hm pts hs i hi
    exact valueAt_exact_keyframe env vars m hm pts hs i hi
  all_goals
    norm_num [Solver.solve, resolveSplines, resolveChannels, lookupVar, cliSolver,
      Channel.valueAt, Channel.resolveAt, litChannel, litKeyframes, resolvePoints,
      resolveVal, rp, evalMethodAt, effectiveMethod, minPts, amin, amax, nmin,
      hermiteVal, List.countP, List.countP.go, Except.map, Bind.bind, Except.bind,
      pure, Except.pure]

/-- Witness for C1: the general exactness statement applied at the concrete
pchip channel 0:0, 0.5:5, 1:10 and its middle keyframe. -/
theorem c1_solve_exact_at_keyframes_witness :
    (litChannel .pchip [((0 : ℚ), 0), (1/2, 5), (1, 10)]).valueAt ratEnv noVars
        (([((0 : ℚ), 0), (1/2, 5), (1, 10)].getD 1 (0, 0)).1)
      = .ok (([((0 : ℚ), 0), (1/2, 5), (1, 10)].getD 1 (0, 0)).2) :=
  c1_solve_exact_at_keyframes.1 ℚ ratEnv noVars .pchip (by simp [interpolating8])
    [((0 : ℚ), 0), (1/2, 5), (1, 10)] (by norm_num [List.pairwise_cons]) 1
    (by norm_num)

/-- C2: with the linear method the channel query is exactly affine between
two adjacent keyframes: for a query `p` bracketed by keyframes
`(at_l, v_l)` and `(at_r, v_r)` with local parameter
`u = (p - at_l)/(at_r - at_l)`, the result is `v_l + u * (v_r - v_l)`;
in particular for keyframes `(0,0)` and `(1,10)` the query at 0.5 returns
exactly 5. -/
theorem c2_linear_affine :
    (∀ (β : Type) [LinearOrderedField β] (env : MathEnv β)
        (vars : String → Option β) (pts : List (β × β)),
        (pts.map Prod.fst).Pairwise (· < ·) →
        ∀ k, k + 1 < pts.length →
        ∀ p, (pts.getD k (0, 0)).1 ≤ p → p < (pts.getD (k + 1) (0, 0)).1 →
        (litChannel .linear pts).valueAt env vars p
          = .ok ((pts.getD k (0, 0)).2 +
              ((p - (pts.getD k (0, 0)).1) /
                ((pts.getD (k + 1) (0, 0)).1 - (pts.getD k (0, 0)).1)) *
              ((pts.getD (k + 1) (0, 0)).2 - (pts.getD k (0, 0)).2)))
    ∧ (litChannel .linear [((0 : ℚ), 0), (1, 10)]).valueAt ratEnv noVars (1/2)
        = .ok 5 := by
  constructor
  · intro β _ env vars pts hs k hk p h1 h2
    by_cases h0 : (pts.getD 0 (0, 0)).1 < p
    · rw [Channel.valueAt,
        resolveAt_lit_dispatch env vars .linear pts hs k p hk h0 h1 h2,
        effectiveMethod_no_fallback .linear (by simp) pts.length
          (by simp only [minPts]; omega)]
      simp only [Except.map, evalMethodAt, litRPts_rp]
    · have hx0 : (pts.getD 0 (0, 0)).1 ≤ p :=
        le_trans (sorted_fst_le pts hs 0 k (Nat.zero_le k) (by omega)) h1
      have hp0 : p = (pts.getD 0 (0, 0)).1 := le_antisymm (not_lt.mp h0) hx0
      have hk0 : k = 0 := by
        by_contra hkne
        have : (pts.getD 0 (0, 0)).1 < (pts.getD k (0, 0)).1 :=
          sorted_fst_lt pts hs 0 k (Nat.pos_of_ne_zero hkne) (by omega)
        rw [← hp0] at this
        exact absurd h1 (not_le.mpr this)
      subst hk0
      rw [Channel.valueAt,
        resolveAt_lit_clampLeft env vars .linear pts
          (List.ne_nil_of_length_pos (by omega)) p (le_of_eq hp0)]
      rw [hp0, sub_self, zero_div, zero_mul, add_zero]
      rfl
  · norm_num [Channel.valueAt, Channel.resolveAt, litChannel, litKeyframes,
      resolvePoints, resolveVal, rp, evalMethodAt, effectiveMethod, minPts, amin,
      amax, nmin, List.countP, List.countP.go, Except.map, Bind.bind, Except.bind,
      pure, Except.pure]

/-- Witness for C2: the affine formula applied to the concrete keyframes
`(0,0)`, `(1,10)` at position 1/4. -/
theorem c2_linear_affine_witness :
    (litChannel .linear [((0 : ℚ), 0), (1, 10)]).valueAt ratEnv noVars (1/4)
      = .ok (([((0 : ℚ), 0), (1, 10)].getD 0 (0, 0)).2 +
          (((1/4 : ℚ) - ([((0 : ℚ), 0), (1, 10)].getD 0 (0, 0)).1) /
            (([((0 : ℚ), 0), (1, 10)].getD 1 (0, 0)).1 -
              ([((0 : ℚ), 0), (1, 10)].getD 0 (0, 0)).1)) *
          (([((0 : ℚ), 0), (1, 10)].getD 1 (0, 0)).2 -
            ([((0 : ℚ), 0), (1, 10)].getD 0 (0, 0)).2)) :=
  c2_linear_affine.1 ℚ ratEnv noVars [((0 : ℚ), 0), (1, 10)]
    (by norm_num [List.pairwise_cons]) 0 (by norm_num) (1/4) (by norm_num)
    (by norm_num)

theorem effectiveMethod_fallback_step (m : Method) (hm : m ≠ .gaussian)
    (h1 : 1 < minPts m) :
    effectiveMethod m 1 = (.step, [.methodFallback m .step]) := by
  cases m
  case gaussian => exact absurd rfl hm
  case nearest => exact absurd h1 (by decide)
  case step => exact absurd h1 (by decide)
  all_goals simp [effectiveMethod, minPts]

/-- C7: a channel with fewer keyframes than its method's minimum required
points resolves without an error: the method falls back to linear when two
points exist and to step/constant when only one exists, and the fallback is
reported; in particular a bezier-tagged single-keyframe channel resolves to
that keyframe's constant value with a reported (not raised) fallback. -/
theorem c7_insufficient_points_fallback :
    (∀ (β : Type) [LinearOrderedField β] (env : MathEnv β)
        (vars : String → Option β) (a v p : β),
        (litChannel .bezier [(a, v)]).resolveAt env vars p
          = .ok (v, [.methodFallback .bezier .step]))
    ∧ (∀ m : Method, m ≠ .gaussian → ∀ n, n < minPts m → 2 ≤ n →
        effectiveMethod m n = (.linear, [.methodFallback m .linear]))
    ∧ (∀ m : Method, m ≠ .gaussian → 1 < minPts m →
        effectiveMethod m 1 = (.step, [.methodFallback m .step])) := by
  refine ⟨?_, effectiveMethod_fallback_linear, effectiveMethod_fallback_step⟩
  intro β _ env vars a v p
  simp only [Channel.resolveAt, litChannel, litKeyframes_length, List.length_cons,
    List.length_nil]
  rw [if_neg (by omega : ¬ (0 + 1 : ℕ) = 0)]
  simp only [Bool.false_eq_true, if_false, resolvePoints_lit, Bind.bind, Except.bind,
    map_pos_id, litKeyframes_getD_method, Option.getD_none, litRPts_rp]
  simp [effectiveMethod, minPts]

/-- Witness for C7: the linear fallback rule applied at the concrete method
cubic with three points. -/
theorem c7_insufficient_points_fallback_witness :
    effectiveMethod .cubic 3 = (.linear, [.methodFallback .cubic .linear]) :=
  c7_insufficient_points_fallback.2.1 .cubic (by simp) 3
    (by simp only [minPts]; omega) (by omega)

theorem mem_insertKeyframe (kf : Keyframe α) (l : List (Keyframe α))
    (k' : Keyframe α) : k' ∈ insertKeyframe kf l ↔ k' = kf ∨ k' ∈ l := by
  induction l with
  | nil => simp [insertKeyframe]
  | cons a t ih =>
    simp only [insertKeyframe]
    by_cases h : kf.pos < a.pos
    · rw [if_pos h]
      simp [List.mem_cons]
    · rw [if_neg h]
      simp only [List.mem_cons, ih]
      tauto

theorem insertKeyframe_pairwise (kf : Keyframe α) (l : List (Keyframe α))
    (hfresh : ∀ k ∈ l, k.pos ≠ kf.pos)
    (hp : l.Pairwise (fun a b => a.pos < b.pos)) :
    (insertKeyframe kf l).Pairwise (fun a b => a.pos < b.pos) := by
  induction l with
  | nil => simp [insertKeyframe]
  | cons a t ih =>
    rcases List.pairwise_cons.mp hp with ⟨ha, ht⟩
    simp only [insertKeyframe]
    by_cases h : kf.pos < a.pos
    · rw [if_pos h]
      refine List.pairwise_cons.mpr ⟨?_, hp⟩
      intro b hb
      rcases List.mem_cons.mp hb with rfl | hbt
      · exact h
      · exact lt_trans h (ha b hbt)
    · rw [if_neg h]
      have hfa : a.pos ≠ kf.pos := hfresh a (List.mem_cons_self a t)
      have hak : a.pos < kf.pos := lt_of_le_of_ne (not_lt.mp h) hfa
      refine List.pairwise_cons.mpr
        ⟨?_, ih (fun k hk => hfresh k (List.mem_cons_of_mem a hk)) ht⟩
      intro b hb
      rcases (mem_insertKeyframe kf t b).mp hb with rfl | hbt
      · exact hak
      · exact ha b hbt

/-- C8: a channel's keyframe positions are pairwise distinct and sorted
ascending; keyframe insertion and removal preserve this invariant, and an
insertion whose `at` duplicates an existing keyframe fails with
`ValueError` (functionally: no modified channel is produced). -/
theorem c8_channel_invariant :
    (∀ (β : Type) [LinearOrderedField β] (ch : Channel β) (kf : Keyframe β)
        (ch' : Channel β), ChannelInv ch → ch.addKeyframe kf = .ok ch' →
        ChannelInv ch')
    ∧ (∀ (β : Type) [LinearOrderedField β] (ch : Channel β) (a : β),
        ChannelInv ch → ChannelInv (ch.removeKeyframe a))
    ∧ (∀ (β : Type) [LinearOrderedField β] (ch : Channel β) (kf : Keyframe β),
        (∃ k ∈ ch.keyframes, k.pos = kf.pos) →
        ch.addKeyframe kf = .error (.valueErr "duplicate keyframe position")) := by
  refine ⟨?_, ?_, ?_⟩
  · intro β _ ch kf ch' hinv hok
    unfold Channel.addKeyframe at hok
    by_cases hdup : ch.keyframes.any (fun k => decide (k.pos = kf.pos))
    · rw [if_pos hdup] at hok
      exact absurd hok (by simp)
    · rw [if_neg hdup] at hok
      injection hok with hok
      subst hok
      have hfresh : ∀ k ∈ ch.keyframes, k.pos ≠ kf.pos := by
        intro k hk
        by_contra heq
        exact hdup (List.any_eq_true.mpr ⟨k, hk, by simpa using heq⟩)
      have hp : ch.keyframes.Pairwise (fun a b => a.pos < b.pos) :=
        List.pairwise_map.mp hinv
      exact List.pairwise_map.mpr (insertKeyframe_pairwise kf ch.keyframes hfresh hp)
  · intro β _ ch a hinv
    have hp : ch.keyframes.Pairwise (fun x y => x.pos < y.pos) :=
      List.pairwise_map.mp hinv
    exact List.pairwise_map.mpr (hp.filter _)
  · intro β _ ch kf hdup
    rcases hdup with ⟨k, hk, hpos⟩
    rw [Channel.addKeyframe,
      if_pos (List.any_eq_true.mpr ⟨k, hk, by simpa using hpos⟩)]

/-- Witness for C8: the duplicate-insertion rule applied to the concrete
channel with keyframes at 0 and 1 and a new keyframe at 1. -/
theorem c8_channel_invariant_witness :
    (litChannel .linear [((0 : ℚ), 0), (1, 10)]).addKeyframe
        ⟨1, .num 5, none, none, none⟩
      = .error (.valueErr "duplicate keyframe position") :=
  c8_channel_invariant.2.2 ℚ (litChannel .linear [((0 : ℚ), 0), (1, 10)])
    ⟨1, .num 5, none, none, none⟩
    ⟨⟨1, .num 10, none, none, none⟩, by simp [litChannel, litKeyframes], rfl⟩

/-- C6: batched evaluation equals element-wise repeated scalar evaluation:
whenever `solve_batch(positions)` succeeds, its result has one entry per
position and the `i`-th entry equals `solve(positions[i])`, exactly. -/
theorem c6_batched_equals_scalar :
    ∀ (β : Type) [LinearOrderedField β] (env : MathEnv β) (s : Solver β)
      (ps : List β) (res : List (List (String × List (String × β)))),
      s.solveBatch env ps = .ok res →
      res.length = ps.length ∧
      ∀ i, i < ps.length → s.solve env (ps.getD i 0) = .ok (res.getD i []) := by
  intro β _ env s ps
  induction ps with
  | nil =>
    intro res hok
    simp only [Solver.solveBatch] at hok
    injection hok with hok
    subst hok
    exact ⟨rfl, fun i hi => absurd hi (by simp)⟩
  | cons p t ih =>
    intro res hok
    simp only [Solver.solveBatch, Bind.bind, Except.bind] at hok
    cases h1 : s.solve env p with
    | error e => rw [h1] at hok; exact absurd hok (by simp)
    | ok r =>
      rw [h1] at hok
      cases h2 : s.solveBatch env t with
      | error e => rw [h2] at hok; exact absurd hok (by simp)
      | ok rest =>
        rw [h2] at hok
        injection hok with hok
        subst hok
        obtain ⟨hlen, hI⟩ := ih rest h2
        refine ⟨by simp [hlen], ?_⟩
        intro i hi
        cases i with
        | zero => simpa using h1
        | succ j =>
          simp only [List.getD_cons_succ]
          exact hI j (by simpa using hi)

/-- Witness for C6: the batched-equals-scalar statement applied to the
concrete CLI solver over positions 0 and 1. -/
theorem c6_batched_equals_scalar_witness :
    ([[("default", [("value", (0 : ℚ))])], [("default", [("value", 10)])]].length
        = [(0 : ℚ), 1].length)
    ∧ ∀ i, i < [(0 : ℚ), 1].length →
      (cliSolver [(0, 0), (1, 10)] : Solver ℚ).solve ratEnv
          ([(0 : ℚ), 1].getD i 0)
        = .ok ([[("default", [("value", (0 : ℚ))])],
            [("default", [("value", 10)])]].getD i []) :=
  c6_batched_equals_scalar ℚ ratEnv (cliSolver [(0, 0), (1, 10)]) [0, 1]
    [[("default", [("value", 0)])], [("default", [("value", 10)])]]
    (by norm_num [Solver.solveBatch, Solver.solve, resolveSplines, resolveChannels,
      lookupVar, cliSolver, Channel.valueAt, Channel.resolveAt, litChannel,
      litKeyframes, resolvePoints, resolveVal, rp, evalMethodAt, effectiveMethod,
      minPts, amin, amax, nmin, hermiteVal, List.countP, List.countP.go, Except.map,
      Bind.bind, Except.bind, pure, Except.pure])

theorem exceptBind_ok {γ δ : Type} (x : Except Err γ) (f : γ → Except Err δ)
    (b : δ) : Except.bind x f = .ok b ↔ ∃ a, x = .ok a ∧ f a = .ok b := by
  cases x <;> simp [Except.bind]

/-- The recursive-descent parser only builds expression trees whose calls
use whitelisted function names, at every fuel level and entry point. -/
theorem parse_whitelist_sound : ∀ fuel : ℕ,
    (∀ ts e rest, parseCmp fuel ts = .ok (e, rest) → callsWhitelisted e = true)
    ∧ (∀ ts e rest, parseAdd fuel ts = .ok (e, rest) → callsWhitelisted e = true)
    ∧ (∀ acc ts e rest, callsWhitelisted acc = true →
        parseAddRest fuel acc ts = .ok (e, rest) → callsWhitelisted e = true)
    ∧ (∀ ts e rest, parseMul fuel ts = .ok (e, rest) → callsWhitelisted e = true)
    ∧ (∀ acc ts e rest, callsWhitelisted acc = true →
        parseMulRest fuel acc ts = .ok (e, rest) → callsWhitelisted e = true)
    ∧ (∀ ts e rest, parseUnary fuel ts = .ok (e, rest) → callsWhitelisted e = true)
    ∧ (∀ ts e rest, parsePow fuel ts = .ok (e, rest) → callsWhitelisted e = true)
    ∧ (∀ ts e rest, parseAtom fuel ts = .ok (e, rest) → callsWhitelisted e = true)
    ∧ (∀ ts es rest, parseArgs fuel ts = .ok (es, rest) → argsWhitelisted es = true) := by
  intro fuel
  induction fuel with
  | zero =>
    refine ⟨?_, ?_, ?_, ?_, ?_, ?_, ?_, ?_, ?_⟩
    · intro ts e rest h
      exact absurd h (by simp [parseCmp])
    · intro ts e rest h
      exact absurd h (by simp [parseAdd])
    · intro acc ts e rest hacc h
      exact absurd h (by simp [parseAddRest])
    · intro ts e rest h
      exact absurd h (by simp [parseMul])
    · intro acc ts e rest hacc h
      exact absurd h (by simp [parseMulRest])
    · intro ts e rest h
      exact absurd h (by simp [parseUnary])
    · intro ts e rest h
      exact absurd h (by simp [parsePow])
    · intro ts e rest h
      exact absurd h (by simp [parseAtom])
    · intro ts es rest h
      exact absurd h (by simp [parseArgs])
  | succ fuel ih =>
    obtain ⟨ihCmp, ihAdd, ihAddRest, ihMul, ihMulRest, ihUnary, ihPow, ihAtom,
      ihArgs⟩ := ih
    have hCmp : ∀ ts e rest, parseCmp (fuel + 1) ts = .ok (e, rest) →
        callsWhitelisted e = true := by
      intro ts e rest h
      simp only [parseCmp, Bind.bind, exceptBind_ok] at h
      obtain ⟨⟨a, ts2⟩, h1, h⟩ := h
      have ha := ihAdd ts a ts2 h1
      split at h
      all_goals first
        | (simp only [Bind.bind, exceptBind_ok, Except.ok.injEq,
             Prod.mk.injEq] at h
           obtain ⟨⟨b, ts4⟩, h2, he, hr⟩ := h
           subst he
           simp [callsWhitelisted, ha, ihAdd _ _ _ h2])
        | (obtain ⟨he, hr⟩ := (by simpa using h : a = e ∧ ts2 = rest)
           subst he
           exact ha)
    have hAddRest : ∀ acc ts e rest, callsWhitelisted acc = true →
        parseAddRest (fuel + 1) acc ts = .ok (e, rest) →
        callsWhitelisted e = true := by
      intro acc ts e rest hacc h
      simp only [parseAddRest] at h
      split at h
      · simp only [Bind.bind, exceptBind_ok] at h
        obtain ⟨⟨b, ts4⟩, h2, h3⟩ := h
        exact ihAddRest _ _ _ _
          (by simp [callsWhitelisted, hacc, ihMul _ _ _ h2]) h3
      · simp only [Bind.bind, exceptBind_ok] at h
        obtain ⟨⟨b, ts4⟩, h2, h3⟩ := h
        exact ihAddRest _ _ _ _
          (by simp [callsWhitelisted, hacc, ihMul _ _ _ h2]) h3
      · obtain ⟨he, hr⟩ := (by simpa using h : acc = e ∧ ts = rest)
        subst he
        exact hacc
    have hAdd : ∀ ts e rest, parseAdd (fuel + 1) ts = .ok (e, rest) →
        callsWhitelisted e = true := by
      intro ts e rest h
      simp only [parseAdd, Bind.bind, exceptBind_ok] at h
      obtain ⟨⟨a, ts2⟩, h1, h⟩ := h
      exact ihAddRest _ _ _ _ (ihMul _ _ _ h1) h
    have hMulRest : ∀ acc ts e rest, callsWhitelisted acc = true →
        parseMulRest (fuel + 1) acc ts = .ok (e, rest) →
        callsWhitelisted e = true := by
      intro acc ts e rest hacc h
      simp only [parseMulRest] at h
      split at h
      · simp only [Bind.bind, exceptBind_ok] at h
        obtain ⟨⟨b, ts4⟩, h2, h3⟩ := h
        exact ihMulRest _ _ _ _
          (by simp [callsWhitelisted, hacc, ihUnary _ _ _ h2]) h3
      · simp only [Bind.bind, exceptBind_ok] at h
        obtain ⟨⟨b, ts4⟩, h2, h3⟩ := h
        exact ihMulRest _ _ _ _
          (by simp [callsWhitelisted, hacc, ihUnary _ _ _ h2]) h3
      · obtain ⟨he, hr⟩ := (by simpa using h : acc = e ∧ ts = rest)
        subst he
        exact hacc
    have hMul : ∀ ts e rest, parseMul (fuel + 1) ts = .ok (e, rest) →
        callsWhitelisted e = true := by
      intro ts e rest h
      simp only [parseMul, Bind.bind, exceptBind_ok] at h
      obtain ⟨⟨a, ts2⟩, h1, h⟩ := h
      exact ihMulRest _ _ _ _ (ihUnary _ _ _ h1) h
    have hPow : ∀ ts e rest, parsePow (fuel + 1) ts = .ok (e, rest) →
        callsWhitelisted e = true := by
      intro ts e rest h
      simp only [parsePow, Bind.bind, exceptBind_ok] at h
      obtain ⟨⟨a, ts2⟩, h1, h⟩ := h
      have ha := ihAtom ts a ts2 h1
      split at h
      · simp only [Bind.bind, exceptBind_ok, Except.ok.injEq, Prod.mk.injEq] at h
        obtain ⟨⟨b, ts4⟩, h2, he, hr⟩ := h
        subst he
        simp [callsWhitelisted, ha, ihUnary _ _ _ h2]
      · obtain ⟨he, hr⟩ := (by simpa using h : a = e ∧ ts2 = rest)
        subst he
        exact ha
    have hUnary : ∀ ts e rest, parseUnary (fuel + 1) ts = .ok (e, rest) →
        callsWhitelisted e = true := by
      intro ts e rest h
      simp only [parseUnary] at h
      split at h
      · simp only [Bind.bind, exceptBind_ok, Except.ok.injEq, Prod.mk.injEq] at h
        obtain ⟨⟨b, ts4⟩, h2, he, hr⟩ := h
        subst he
        simpa [callsWhitelisted] using ihUnary _ _ _ h2
      · exact ihPow _ _ _ h
    have hArgs : ∀ ts es rest, parseArgs (fuel + 1) ts = .ok (es, rest) →
        argsWhitelisted es = true := by
      intro ts es rest h
      simp only [parseArgs, Bind.bind, exceptBind_ok] at h
      obtain ⟨⟨a, ts2⟩, h1, h⟩ := h
      have ha := ihCmp ts a ts2 h1
      split at h
      · simp only [Bind.bind, exceptBind_ok, Except.ok.injEq, Prod.mk.injEq] at h
        obtain ⟨⟨bs, ts4⟩, h2, he, hr⟩ := h
        subst he
        simp [argsWhitelisted, ha, ihArgs _ _ _ h2]
      · obtain ⟨he, hr⟩ := (by simpa using h : [a] = es ∧ _ = rest)
        subst he
        simp [argsWhitelisted, callsWhitelisted, ha]
      · exact absurd h (by simp)
    have hAtom : ∀ ts e rest, parseAtom (fuel + 1) ts = .ok (e, rest) →
        callsWhitelisted e = true := by
      intro ts e rest h
      simp only [parseAtom] at h
      split at h
      · obtain ⟨he, hr⟩ := (by simpa using h : Expr.num _ = e ∧ _ = rest)
        subst he
        rfl
      · obtain ⟨he, hr⟩ := (by simpa using h : Expr.var "@" = e ∧ _ = rest)
        subst he
        rfl
      · simp only [Bind.bind, exceptBind_ok] at h
        obtain ⟨⟨a, ts2⟩, h1, h⟩ := h
        have ha := ihCmp _ a ts2 h1
        split at h
        · obtain ⟨he, hr⟩ := (by simpa using h : a = e ∧ _ = rest)
          subst he
          exact ha
        · exact absurd h (by simp)
      · rename_i f ts2 _
        split at h
        · rename_i hf
          simp only [Bind.bind, exceptBind_ok, Except.ok.injEq,
            Prod.mk.injEq] at h
          obtain ⟨⟨args, ts4⟩, h2, he, hr⟩ := h
          subst he
          simp [callsWhitelisted, hf, ihArgs _ _ _ h2]
        · exact absurd h (by simp)
      · obtain ⟨he, hr⟩ := (by simpa using h : Expr.var _ = e ∧ _ = rest)
        subst he
        rfl
      · exact absurd h (by simp)
    exact ⟨hCmp, hAdd, hAddRest, hMul, hMulRest, hUnary, hPow, hAtom, hArgs⟩

/-- C4: `^` is accepted as exponentiation and normalized to the evaluator's
power operator, so `2^3` parses and evaluates to 8; inputs with tokens
outside the whitelist fail with `SyntaxError` at parse time, before any
evaluation — attribute access (`a.b`), assignment (`x = 3`) and a call of a
non-whitelisted function (`__import__(1)`) are rejected, and every
successfully parsed tree only calls whitelisted functions. -/
theorem c4_expression_sanitization :
    sanitize_for_ast "2^3" = "2**3"
    ∧ (do
        let t ← parseExpression "2^3"
        evalExpr ratEnv noVars t : Except Err ℚ) = .ok 8
    ∧ isSynErr (parseExpression "a.b") = true
    ∧ isSynErr (parseExpression "x = 3") = true
    ∧ isSynErr (parseExpression "__import__(1)") = true
    ∧ (∀ s e, parseExpression s = .ok e → callsWhitelisted e = true) := by
  refine ⟨by decide, by decide, by decide, by decide, by decide, ?_⟩
  intro s e h
  simp only [parseExpression, Bind.bind, exceptBind_ok] at h
  obtain ⟨toks, h1, h⟩ := h
  obtain ⟨⟨a, rest⟩, h2, h3⟩ := h
  have ha := (parse_whitelist_sound (8 * (toks.length + 1))).1 _ _ _ h2
  split at h3
  · have he : a = e := by
      simpa using h3
    exact he ▸ ha
  · exact absurd h3 (by simp)

/-- Witness for C4: the whitelist-soundness component applied to the
concretely parsed expression `sin(@ * pi)`. -/
theorem c4_expression_sanitization_witness :
    callsWhitelisted (.call "sin" [.bin .mul (.var "@") (.var "pi")]) = true :=
  c4_expression_sanitization.2.2.2.2.2 "sin(@ * pi)"
    (.call "sin" [.bin .mul (.var "@") (.var "pi")]) rfl

/-- C5: in raw-index mode the incoming `at` values are not pre-normalized:
the channel's own min/max normalize both keyframes and query before
bracketing, so index-mode keyframes 0:0, 5:5, 10:10 queried at the raw
positions 0, 5 and 10 yield exactly 0.0, 5.0 and 10.0; and the query
position published to `@` is the normalized one (an index-mode channel whose
keyframes are the expression `@`, queried at raw position 5, yields 1/2,
not 5). -/
theorem c5_raw_index_mode :
    idxChannel.valueAt ratEnv noVars 0 = .ok 0
    ∧ idxChannel.valueAt ratEnv noVars 5 = .ok 5
    ∧ idxChannel.valueAt ratEnv noVars 10 = .ok 10
    ∧ idxExprChannel.valueAt ratEnv noVars 5 = .ok (1/2) := by
  have hparse : parseExpression "@" = .ok (.var "@") := rfl
  refine ⟨?_, ?_, ?_, ?_⟩
  all_goals
    norm_num [idxChannel, idxExprChannel, Channel.valueAt, Channel.resolveAt,
      litKeyframes, resolvePoints, resolveVal, hparse, evalExpr, ratEnv, rp,
      evalMethodAt, effectiveMethod, minPts, amin, amax, nmin, hermiteVal,
      List.countP, List.countP.go, Except.map, Bind.bind, Except.bind, pure,
      Except.pure]

theorem plotLoop_eq_filterMap {γ : Type} (interp : Interp γ) (tvs : List γ) :
    ∀ ms : List String,
      plotLoop interp tvs ms
        = (ms.filterMap (fun m =>
            match evalCurve interp tvs m with
            | .ok vs => some (m, vs)
            | .error _ => none),
          ms.filterMap (fun m =>
            match evalCurve interp tvs m with
            | .ok _ => none
            | .error e => some ("Skipping " ++ m ++ " due to: " ++ e))) := by
  intro ms
  induction ms with
  | nil => rfl
  | cons m t ih =>
    simp only [plotLoop, List.filterMap_cons]
    cases h : evalCurve interp tvs m <;> simp [h, ih]

/-- C3: expression keyframes are evaluated with `@` bound to the current
normalized query position: for the channel 0:0, 0.5:`sin(@ * pi)`, 1:0
(over the reals, with the environment supplying `pi` and `sin`), the query
at 0.5 returns exactly 1 (`sin(π/2)`), and the queries at 0.25 and 0.75
each return a value strictly between 0 and 1 (both equal √2/4, since the
expression is re-evaluated at the query position). -/
theorem c3_expression_keyframes :
    ∀ (env : MathEnv ℝ),
      env.const "@" = none →
      env.const "pi" = some Real.pi →
      env.fn "sin" = some (fun l => match l with
        | [x] => some (Real.sin x)
        | _ => none) →
      ∀ (vars : String → Option ℝ) (ch : Channel ℝ),
        ch = { keyframes := [⟨0, .num 0, none, none, none⟩,
                             ⟨1/2, .expr "sin(@ * pi)", none, none, none⟩,
                             ⟨1, .num 0, none, none, none⟩],
               defaultMethod := .cubic, useIndices := false } →
        ch.valueAt env vars (1/2) = .ok 1
        ∧ (∃ y, ch.valueAt env vars (1/4) = .ok y ∧ 0 < y ∧ y < 1)
        ∧ (∃ y, ch.valueAt env vars (3/4) = .ok y ∧ 0 < y ∧ y < 1) := by
  intro env hat hpi hsin vars ch hch
  subst hch
  have hparse : parseExpression "sin(@ * pi)"
      = .ok (.call "sin" [.bin .mul (.var "@") (.var "pi")]) := rfl
  have hs2pos : (0 : ℝ) < Real.sqrt 2 / 4 := by positivity
  have hs2lt : Real.sqrt 2 / 4 < 1 := by
    nlinarith [Real.sq_sqrt (show (0 : ℝ) ≤ 2 by norm_num), Real.sqrt_nonneg 2]
  refine ⟨?_, ⟨Real.sqrt 2 / 4, ?_, hs2pos, hs2lt⟩,
    ⟨Real.sqrt 2 / 4, ?_, hs2pos, hs2lt⟩⟩
  · have hx : (1/2 : ℝ) * Real.pi = Real.pi / 2 := by ring
    norm_num [Channel.valueAt, Channel.resolveAt, resolvePoints, resolveVal, hparse,
      evalExpr, evalArgs, applyBin, hat, hpi, hsin, hx, Real.sin_pi_div_two, rp,
      evalMethodAt, effectiveMethod, minPts, amin, amax, nmin,
      List.countP, List.countP.go, Except.map, Bind.bind, Except.bind, pure,
      Except.pure]
  · have hx : (1/4 : ℝ) * Real.pi = Real.pi / 4 := by ring
    norm_num [Channel.valueAt, Channel.resolveAt, resolvePoints, resolveVal, hparse,
      evalExpr, evalArgs, applyBin, hat, hpi, hsin, hx, Real.sin_pi_div_four, rp,
      evalMethodAt, effectiveMethod, minPts, amin, amax, nmin,
      List.countP, List.countP.go, Except.map, Bind.bind, Except.bind, pure,
      Except.pure]
    ring
  · have hx : (3/4 : ℝ) * Real.pi = Real.pi - Real.pi / 4 := by ring
    norm_num [Channel.valueAt, Channel.resolveAt, resolvePoints, resolveVal, hparse,
      evalExpr, evalArgs, applyBin, hat, hpi, hsin, hx, Real.sin_pi_sub,
      Real.sin_pi_div_four, rp, evalMethodAt, effectiveMethod, minPts, amin, amax,
      nmin, List.countP, List.countP.go, Except.map, Bind.bind, Except.bind, pure,
      Except.pure]
    ring

/-- Witness for C3: the midpoint conclusion applied to the concrete
environment binding `pi` and `sin`. -/
theorem c3_expression_keyframes_witness :
    ({ keyframes := [⟨0, .num 0, none, none, none⟩,
                     ⟨1/2, .expr "sin(@ * pi)", none, none, none⟩,
                     ⟨1, .num 0, none, none, none⟩],
       defaultMethod := .cubic, useIndices := false } : Channel ℝ).valueAt
        ⟨fun s => if s = "pi" then some Real.pi else none,
         fun s => if s = "sin" then
             some (fun l => match l with
               | [x] => some (Real.sin x)
               | _ => none)
           else none,
         fun _ _ => none⟩ noVars (1/2)
      = .ok 1 :=
  (c3_expression_keyframes
    ⟨fun s => if s = "pi" then some Real.pi else none,
     fun s => if s = "sin" then
         some (fun l => match l with
           | [x] => some (Real.sin x)
           | _ => none)
       else none,
     fun _ _ => none⟩ rfl rfl rfl noVars _ rfl).1

/-- C9: both visualization entry points raise `ImportError` when matplotlib
is unavailable, regardless of the interpolator (so before any evaluation of
it); when matplotlib is available neither can produce an `ImportError`, and
when the underlying calls succeed each returns a figure. -/
theorem c9_matplotlib_import_guard :
    (∀ (γ : Type) (interp : Interp γ) (tvs : List γ)
        (ms : Option (List String)) (title : String),
        plot_interpolation_comparison false interp tvs ms title
          = .error .importError)
    ∧ (∀ (γ : Type) (interp : Interp γ) (tvs : List γ) (m : String)
        (t : Option String),
        plot_single_interpolation false interp tvs m t = .error .importError)
    ∧ (∀ (γ : Type) (interp : Interp γ) (tvs : List γ)
        (ms : Option (List String)) (title : String),
        plot_interpolation_comparison true interp tvs ms title
          ≠ .error .importError)
    ∧ (∀ (γ : Type) (interp : Interp γ) (tvs : List γ) (m : String)
        (t : Option String),
        plot_single_interpolation true interp tvs m t ≠ .error .importError)
    ∧ (∀ (γ : Type) (interp : Interp γ) (tvs : List γ) (ms : List String)
        (title : String) (kps : List (γ × γ)),
        interp.getKeyframePoints = .ok kps →
        ∃ fig notices,
          plot_interpolation_comparison true interp tvs (some ms) title
            = .ok (fig, notices))
    ∧ (∀ (γ : Type) (interp : Interp γ) (tvs : List γ) (m : String)
        (t : Option String) (kps : List (γ × γ)) (vs : List γ),
        interp.getKeyframePoints = .ok kps →
        evalCurve interp tvs m = .ok vs →
        ∃ fig, plot_single_interpolation true interp tvs m t
            = .ok (fig, [])) := by
  refine ⟨?_, ?_, ?_, ?_, ?_, ?_⟩
  · intro γ interp tvs ms title
    rfl
  · intro γ interp tvs m t
    rfl
  · intro γ interp tvs ms title
    simp only [plot_interpolation_comparison, Bool.not_true, Bool.false_eq_true,
      if_false]
    cases ms with
    | none =>
      cases h : interp.getKeyframePoints <;> simp
    | some l =>
      cases h : interp.getKeyframePoints <;> simp
  · intro γ interp tvs m t
    simp only [plot_single_interpolation, Bool.not_true, Bool.false_eq_true,
      if_false]
    cases h : interp.getKeyframePoints with
    | error e => simp
    | ok kps =>
      cases h2 : evalCurve interp tvs m <;> simp
  · intro γ interp tvs ms title kps h
    simp only [plot_interpolation_comparison, Bool.not_true, Bool.false_eq_true,
      if_false, h]
    exact ⟨_, _, rfl⟩
  · intro γ interp tvs m t kps vs h h2
    simp only [plot_single_interpolation, Bool.not_true, Bool.false_eq_true,
      if_false, h, h2]
    exact ⟨_, rfl⟩

/-- Witness for C9: the figure-returning component of
`plot_single_interpolation` applied to a concrete interpolator. -/
theorem c9_matplotlib_import_guard_witness :
    ∃ fig, plot_single_interpolation true
        (⟨.ok [((0 : ℚ), 0)], fun t _ => .ok t⟩ : Interp ℚ) [0, 1] "cubic" none
      = .ok (fig, []) :=
  c9_matplotlib_import_guard.2.2.2.2.2 ℚ ⟨.ok [((0 : ℚ), 0)], fun t _ => .ok t⟩
    [0, 1] "cubic" none [((0 : ℚ), 0)] [0, 1] rfl rfl

/-- C10: with an explicitly supplied method list and available keyframe
points, `plot_interpolation_comparison` catches any per-method evaluation
failure: the failing methods are skipped with a printed notice, the
successful ones are plotted, and a figure is always returned — no
evaluation exception propagates. -/
theorem c10_comparison_skips_failing_methods :
    ∀ (γ : Type) (interp : Interp γ) (tvs : List γ) (ms : List String)
      (title : String) (kps : List (γ × γ)),
      interp.getKeyframePoints = .ok kps →
      plot_interpolation_comparison true interp tvs (some ms) title
        = .ok (⟨ms.filterMap (fun m =>
              match evalCurve interp tvs m with
              | .ok vs => some (m, vs)
              | .error _ => none), kps, title⟩,
            ms.filterMap (fun m =>
              match evalCurve interp tvs m with
              | .ok _ => none
              | .error e => some ("Skipping " ++ m ++ " due to: " ++ e))) := by
  intro γ interp tvs ms title kps h
  simp only [plot_interpolation_comparison, Bool.not_true, Bool.false_eq_true,
    if_false, h, plotLoop_eq_filterMap]

/-- Witness for C10: the skip behaviour on a concrete interpolator whose
`get_value` raises for the method `"bad"`: `linear` is plotted, `bad` is
skipped with a notice, and the figure is returned. -/
theorem c10_comparison_skips_failing_methods_witness :
    plot_interpolation_comparison true
        (⟨.ok [((0 : ℚ), 0)],
          fun t m => if m = "bad" then .error "boom" else .ok t⟩ : Interp ℚ)
        [0, 1] (some ["linear", "bad"]) "T"
      = .ok (⟨[("linear", [0, 1])], [((0 : ℚ), 0)], "T"⟩,
          ["Skipping bad due to: boom"]) := by
  rw [c10_comparison_skips_failing_methods ℚ
    ⟨.ok [((0 : ℚ), 0)], fun t m => if m = "bad" then .error "boom" else .ok t⟩
    [0, 1] ["linear", "bad"] "T" [((0 : ℚ), 0)] rfl]
  rfl

end SpinalTap
